import Mathlib

/-! raisim_mpc: the environment wrapper and the test driver of the whole-body controller

Shallow embedding of
* `Environment.hpp` (`interp1d`, `GaitProfile`, `ENVIRONMENT::step`,
  `ENVIRONMENT::generateCommand`), and
* `tests/whole_body_controller.cpp` (`interp1d`, `getCommand`, the MPC cadence counter of
  `main`).

Conventions of the embedding.
* A C++ `double` (and the `float` policy action cast to `double`) is a rational number; the
  arithmetic is exact: rounding is not modelled.
* An Eigen vector / `std::vector<double>` is a `List ℚ`; a fixed `Vector4d` is a `Fin 4 → ℚ`.
* A C++ `int` is an `Int`; `int(x)` on a double truncates toward zero.
* Code whose behaviour is undefined on some input (an index past the end of a vector, a
  non-void function that ends without `return`) returns an error value on that input.
-/

namespace RaisimMpc

/-! ## Numeric helpers -/

/-- The conversion `int(x)` of a double: truncation toward zero. -/
def truncToInt (q : ℚ) : Int := Int.tdiv q.num q.den

/-- The function `std::fmod(x, y)`: `x - trunc(x / y) * y`. -/
def fmod (x y : ℚ) : ℚ := x - (truncToInt (x / y) : ℚ) * y

/-- Eigen `a.cwiseProduct(b)`: entrywise product. -/
def cwiseProduct (a b : List ℚ) : List ℚ := List.zipWith (fun x y => x * y) a b

/-- Eigen `a += b`: entrywise sum. -/
def cwiseAdd (a b : List ℚ) : List ℚ := List.zipWith (fun x y => x + y) a b

/-- Eigen `v.minCoeff()`: the smallest entry (the vector is non-empty in every use). -/
def minCoeff : List ℚ → ℚ
  | [] => 0
  | x :: xs => xs.foldl min x

/-- Eigen `v.head(n)`: the first `n` entries. -/
def head (v : List ℚ) (n : Nat) : List ℚ := v.take n

/-- Eigen `v.tail(n)`: the last `n` entries. -/
def tail (v : List ℚ) (n : Nat) : List ℚ := v.drop (v.length - n)

/-! ## `ENVIRONMENT`: action scaling (constructor, lines 82-90) -/

/-- The field `actionDim_`. -/
def actionDim : Nat := 22

/-- The field `actionMean_`. -/
def actionMean : List ℚ :=
  [1, 1, 0, 0, 0, 50, 0, 0, 1, 0.2, 0.2, 0.1,
   12.454, 0.07335, 0, 0, 0, 0.25068, 0, 0, 0, 0.25447]

/-- The field `actionStd_`. -/
def actionStd : List ℚ :=
  [0.3, 0.3, 0.3, 0.3, 0.3, 0.3, 0.3, 0.3, 0.3, 0.3, 0.3, 0.3,
   0.3, 0.003, 0.003, 0.003, 0.003, 0.03, 0.003, 0.003, 0.003, 0.03]

/-! ## `ENVIRONMENT::step` (lines 123-155) -/

/-- Lines 124-126: `action_ = action; action_ = action_.cwiseProduct(actionStd_);
action_ += actionMean_`. -/
def scaleAction (action : List ℚ) : List ℚ :=
  cwiseAdd (cwiseProduct action actionStd) actionMean

/-- Lines 129-132: `min_weight = action_.minCoeff(); if (min_weight < 0) action_.array() -=
min_weight`. -/
def shiftAction (action_ : List ℚ) : List ℚ :=
  let min_weight := minCoeff action_
  if min_weight < 0 then action_.map (fun x => x - min_weight) else action_

/-- The arguments of one call `controller_->getAction(mpc_step, mpc_weights_, mass_, inertia_)`. -/
structure GetActionCall where
  mpc_step : Bool
  mpc_weights : List ℚ
  mass : ℚ
  inertia : List ℚ
deriving DecidableEq, Repr

/-- The controller parameters that `step` derives from the policy action (lines 134-142). -/
structure MpcParams where
  mpc_weights : List ℚ
  mass : ℚ
  inertia : List ℚ
deriving DecidableEq, Repr

/-- Lines 123-142 of `step`: scaling, shift, and the split into weights, mass and inertia.
The action has `actionDim_` entries (Eigen requires equal sizes in `cwiseProduct` and `+=`);
any other size has no defined result. -/
def stepParams (action : List ℚ) : Option MpcParams :=
  if action.length = actionDim then
    let action_ := shiftAction (scaleAction action)
    let mpc_weights_ := head action_ 12 ++ [0]
    match action_[12]? with
    | some mass_ => some { mpc_weights := mpc_weights_, mass := mass_, inertia := tail action_ 9 }
    | none => none
  else none

/-- The number of sub-steps of `step`: `int(control_dt_ / simulation_dt_ + 1e-10)`. -/
def numSubSteps (control_dt simulation_dt : ℚ) : Int :=
  truncToInt (control_dt / simulation_dt + 1e-10)

/-- The loop of `step` (lines 145-155) from counter value `i`, as the list of the `getAction`
calls it makes: `for (; i < n; i++) { mpc_step = false; if (i==0) mpc_step = true;
getAction(mpc_step, ...) }`. -/
def actionLoop (n : Int) (p : MpcParams) (i : Nat) : List GetActionCall :=
  if h : (i : Int) < n then
    let mpc_step := if i = 0 then true else false
    { mpc_step := mpc_step, mpc_weights := p.mpc_weights, mass := p.mass, inertia := p.inertia }
      :: actionLoop n p (i + 1)
  else []
termination_by (n - i).toNat
decreasing_by omega

/-- The `getAction` calls of one `step(action)`, in order. -/
def step (action : List ℚ) (control_dt simulation_dt : ℚ) : Option (List GetActionCall) :=
  (stepParams action).map (fun p => actionLoop (numSubSteps control_dt simulation_dt) p 0)

/-! ## `interp1d` (identical in `Environment.hpp` and in the test driver) -/

/-- The ways in which a run of the code leaves defined behaviour. -/
inductive Fault where
  /-- A read of `time_points[i]` with `i` past the last entry. -/
  | timePointOutOfRange (i : Nat)
  /-- A read of `speed_points.row(i)` with `i` past the last row. -/
  | speedRowOutOfRange (i : Nat)
  /-- The end of a non-void function is reached without a `return`. -/
  | missingReturn
deriving DecidableEq, Repr

/-- The loop of `interp1d` from counter value `i`:
`for (; i < time_points.size(); i++) if ((t>=time_points[i]) && (t<=time_points[i+1])) return
speed_points.row(i);`. The operator `&&` reads `time_points[i+1]` only when the first test
holds. -/
def interp1dLoop (time_points : List ℚ) (speed_points : List (List ℚ)) (t : ℚ) (i : Nat) :
    Except Fault (List ℚ) :=
  if h : i < time_points.length then
    if t ≥ time_points[i] then
      match time_points[i + 1]? with
      | none => Except.error (Fault.timePointOutOfRange (i + 1))
      | some next =>
        if t ≤ next then
          match speed_points[i]? with
          | some row => Except.ok row
          | none => Except.error (Fault.speedRowOutOfRange i)
        else interp1dLoop time_points speed_points t (i + 1)
    else interp1dLoop time_points speed_points t (i + 1)
  else Except.error Fault.missingReturn
termination_by time_points.length - i

/-- The helper `interp1d(time_points, speed_points, t)`. -/
def interp1d (time_points : List ℚ) (speed_points : List (List ℚ)) (t : ℚ) :
    Except Fault (List ℚ) :=
  interp1dLoop time_points speed_points t 0

/-- The local `time_points` of `getCommand` and of `generateCommand`. -/
def time_points : List ℚ := [0, 3, 6, 9, 12, 15, 18]

/-- The local `speed_points` of `getCommand` and of `generateCommand`, for given `vx, vy, wz`. -/
def speed_points (vx vy wz : ℚ) : List (List ℚ) :=
  [[vx, 0, 0, 0], [-vx, 0, 0, 0], [0, vy, 0, 0], [0, -vy, 0, 0], [0, 0, 0, wz], [0, 0, 0, -wz]]

/-! ## `GaitProfile` (identical in `Environment.hpp` and in the test driver) -/

/-- The class `GaitProfile`: per-leg gait configuration. -/
structure GaitProfile where
  stance_duration : Fin 4 → ℚ
  duty_factor : Fin 4 → ℚ
  init_leg_phase : Fin 4 → ℚ
  init_leg_state : Fin 4 → Int

/-- The members that `GaitProfile("standing")` sets. -/
def standing : GaitProfile :=
  { stance_duration := ![0.3, 0.3, 0.3, 0.3]
    duty_factor := ![1, 1, 1, 1]
    init_leg_phase := ![0, 0, 0, 0]
    init_leg_state := ![1, 1, 1, 1] }

/-- The members that `GaitProfile("trotting")` sets. -/
def trotting : GaitProfile :=
  { stance_duration := ![0.3, 0.3, 0.3, 0.3]
    duty_factor := ![0.6, 0.6, 0.6, 0.6]
    init_leg_phase := ![0.9, 0, 0, 0.9]
    init_leg_state := ![0, 1, 1, 0] }

/-- The constructor `GaitProfile(string gait)`; for a name other than the two it knows the
members stay uninitialised. -/
def GaitProfile.make (gait : String) : Option GaitProfile :=
  if gait = "standing" then some standing
  else if gait = "trotting" then some trotting
  else none

/-! ## `GaitGenerator` -/

/-- The contact state of a leg. -/
inductive ContactState where
  | SWING
  | STANCE
deriving DecidableEq, Repr

/-- Modelled from the spec: the `GaitGenerator` class (`locomotion_controller.hpp`) is not among
the sources. The period of a leg's state machine is `stanceDuration[leg] / dutyFactor[leg]`. -/
def cycleLength (g : GaitProfile) (leg : Fin 4) : ℚ :=
  g.stance_duration leg / g.duty_factor leg

/-- Modelled from the spec: the `GaitGenerator` class is not among the sources. On
`update(simTime)` the normalized full-cycle phase is
`frac(simTime / cycleLength + initialPhaseOffset[leg])`. -/
def normalizedPhase (g : GaitProfile) (leg : Fin 4) (simTime : ℚ) : ℚ :=
  Int.fract (simTime / cycleLength g leg + g.init_leg_phase leg)

/-- Modelled from the spec: the `GaitGenerator` class is not among the sources. On
`update(simTime)` the leg is STANCE if the normalized phase is below `dutyFactor[leg]`,
otherwise SWING. -/
def contactState (g : GaitProfile) (leg : Fin 4) (simTime : ℚ) : ContactState :=
  if normalizedPhase g leg simTime < g.duty_factor leg then ContactState.STANCE
  else ContactState.SWING

/-- Modelled from the spec: the `GaitGenerator` class is not among the sources. On `reset()`
each leg's contact state is restored to the configured initial state, where the configuration
value 1 stands for STANCE and any other value (0 in both profiles) for SWING. -/
def resetContactState (g : GaitProfile) (leg : Fin 4) : ContactState :=
  if g.init_leg_state leg = 1 then ContactState.STANCE else ContactState.SWING

/-! ## `ENVIRONMENT::generateCommand` (lines 232-264) -/

/-- The field `vx_diff_` as the constructor sets it. -/
def vx_diff : ℚ := 0.75

/-- The field `vy_diff_` as the constructor sets it. -/
def vy_diff : ℚ := 0.4

/-- The field `wz_diff_` as the constructor sets it. -/
def wz_diff : ℚ := 1.0

/-- The random branch of `generateCommand`, after `vel_.setZero(4)`: `rand1` and `rand2` are the
values of the two successive calls of `std::rand()`. -/
def randomCommand (rand1 rand2 : Nat) : List ℚ :=
  let vel_ : List ℚ := [0, 0, 0, 0]
  let m : Int := Int.tmod rand1 6
  if m = 0 then vel_.set 0 (((Int.tmod rand2 (truncToInt (vx_diff * 100)) : Int) : ℚ) / 100 + 1.5)
  else if m = 1 then
    vel_.set 0 (-(((Int.tmod rand2 (truncToInt (vx_diff * 100)) : Int) : ℚ) / 100 + 1.5))
  else if m = 2 then
    vel_.set 1 (((Int.tmod rand2 (truncToInt (vy_diff * 100)) : Int) : ℚ) / 100 + 0.75)
  else if m = 3 then
    vel_.set 1 (-(((Int.tmod rand2 (truncToInt (vy_diff * 100)) : Int) : ℚ) / 100 + 0.75))
  else if m = 4 then
    vel_.set 3 (((Int.tmod rand2 (truncToInt (wz_diff * 100)) : Int) : ℚ) / 10 + 2)
  else if m = 5 then
    vel_.set 3 (-(((Int.tmod rand2 (truncToInt (wz_diff * 100)) : Int) : ℚ) / 10 + 2))
  else vel_

/-- The method `generateCommand(t, vel_rand)`: the new value of the field `vel_`, given its old
value and the values `rand1`, `rand2` that the next two calls of `std::rand()` return. -/
def generateCommand (vel_ : List ℚ) (rand1 rand2 : Nat) (t : ℚ) (vel_rand : Bool) :
    Except Fault (List ℚ) :=
  if vel_rand = true then
    if fmod t 1 = 0 then Except.ok (randomCommand rand1 rand2)
    else Except.ok vel_
  else
    interp1d time_points (speed_points 2.0 0.95 2.5) t

/-! ## The test driver `tests/whole_body_controller.cpp` -/

/-- The global `mpc_weights` of the test driver. -/
def mpc_weights : List ℚ := [1, 1, 0, 0, 0, 50, 0, 0, 1, 0.2, 0.2, 0.1, 0]

/-- The global `inertia` of the test driver. -/
def inertia : List ℚ := [0.07335, 0, 0, 0, 0.25068, 0, 0, 0, 0.25447]

/-- The global `mass` of the test driver. -/
def mass : ℚ := 12.454

/-- The global `sim_freq` of the test driver (a `double`). -/
def sim_freq : ℚ := 1000

/-- The global `mpc_freq` of the test driver (an `int`). -/
def mpc_freq : Int := 50

/-- The global `max_time` of the test driver. -/
def max_time : Int := 24

/-- The function `getCommand(t)` of the test driver. -/
def getCommand (t : ℚ) : Except Fault (List ℚ) :=
  interp1d time_points (speed_points 1.5 0.75 2.0) t

/-- The initial value of `mpc_count`: `int mpc_count = sim_freq / mpc_freq - 1`. -/
def mpcCountInit : Int := truncToInt (sim_freq / (mpc_freq : ℚ) - 1)

/-- Lines 121-126 of the main loop: `mpc_count += 1; mpc_step = false;
if (mpc_count == (int(sim_freq) / mpc_freq)) { mpc_count = 0; mpc_step = true; }`; the result
is the new `mpc_count` and `mpc_step`. -/
def mpcTick (mpc_count : Int) : Int × Bool :=
  let mpc_count := mpc_count + 1
  if mpc_count = Int.tdiv (truncToInt sim_freq) mpc_freq then (0, true) else (mpc_count, false)

/-- The value of `mpc_count` after `k` iterations of the main loop. -/
def mpcCountAfter : Nat → Int
  | 0 => mpcCountInit
  | k + 1 => (mpcTick (mpcCountAfter k)).1

/-- The flag `mpc_step` that iteration `k` (counted from 0) passes to `getAction`. -/
def mpcStepAt (k : Nat) : Bool := (mpcTick (mpcCountAfter k)).2

/-! ## Concrete policy actions -/

/-- The all-zero policy action. -/
def zeroAction : List ℚ := List.replicate 22 0

/-- A policy action whose entry 12 (the mass channel) is -100 and whose other entries are 0. -/
def lowMassAction : List ℚ := List.replicate 12 0 ++ [-100] ++ List.replicate 9 0

/-- A policy action whose entry 14 (inertia row 0, column 1) is 1 and whose other entries
are 0. -/
def skewAction : List ℚ := List.replicate 14 0 ++ [1] ++ List.replicate 7 0

/-! ## The inertia argument read as a matrix -/

/-- Entry `(r, c)` of the 9 inertia values read as a row-major 3x3 matrix. -/
def inertiaEntry (I : List ℚ) (r c : Fin 3) : ℚ := I.getD (3 * r.val + c.val) 0

/-- The 9 inertia values form a symmetric matrix. -/
def inertiaSymmetric (I : List ℚ) : Prop := ∀ r c : Fin 3, inertiaEntry I r c = inertiaEntry I c r

instance decidableInertiaSymmetric (I : List ℚ) : Decidable (inertiaSymmetric I) := by
  unfold inertiaSymmetric; infer_instance

/-! ## Lemmas on the vector helpers -/

theorem foldl_min_le_init (xs : List ℚ) (x : ℚ) : xs.foldl min x ≤ x := by
  induction xs generalizing x with
  | nil => simp
  | cons y ys ih => exact le_trans (ih (min x y)) (min_le_left x y)

theorem foldl_min_le_of_mem (xs : List ℚ) (x y : ℚ) (hy : y ∈ xs) : xs.foldl min x ≤ y := by
  induction xs generalizing x with
  | nil => simp at hy
  | cons z zs ih =>
    rcases List.mem_cons.mp hy with h | h
    · subst h
      exact le_trans (foldl_min_le_init zs (min x y)) (min_le_right x y)
    · exact ih (min x z) h

theorem foldl_min_mem (xs : List ℚ) (x : ℚ) : xs.foldl min x ∈ x :: xs := by
  induction xs generalizing x with
  | nil => simp
  | cons z zs ih =>
    have h := ih (min x z)
    rcases List.mem_cons.mp h with h1 | h1
    · rcases min_choice x z with h2 | h2
      · rw [List.foldl_cons, h1, h2]; exact List.mem_cons_self _ _
      · rw [List.foldl_cons, h1, h2]
        exact List.mem_cons_of_mem _ (List.mem_cons_self _ _)
    · exact List.mem_cons_of_mem _ (List.mem_cons_of_mem _ h1)

/-- The value `minCoeff v` is a lower bound of the entries of `v`. -/
theorem minCoeff_le_of_mem (v : List ℚ) (x : ℚ) (hx : x ∈ v) : minCoeff v ≤ x := by
  cases v with
  | nil => simp at hx
  | cons y ys =>
    rcases List.mem_cons.mp hx with h | h
    · subst h; exact foldl_min_le_init ys x
    · exact foldl_min_le_of_mem ys y x h

/-- The value `minCoeff v` is an entry of a non-empty `v`. -/
theorem minCoeff_mem (v : List ℚ) (hv : v ≠ []) : minCoeff v ∈ v := by
  cases v with
  | nil => exact absurd rfl hv
  | cons y ys => exact foldl_min_mem ys y

theorem length_shiftAction (v : List ℚ) : (shiftAction v).length = v.length := by
  unfold shiftAction
  simp only
  split_ifs <;> simp

theorem length_scaleAction (a : List ℚ) (h : a.length = 22) : (scaleAction a).length = 22 := by
  simp [scaleAction, cwiseAdd, cwiseProduct, actionStd, actionMean, h]

/-- Every entry of the shifted vector is non-negative. -/
theorem shiftAction_nonneg (v : List ℚ) (x : ℚ) (hx : x ∈ shiftAction v) : 0 ≤ x := by
  unfold shiftAction at hx
  simp only at hx
  split_ifs at hx with hneg
  · obtain ⟨y, hy, rfl⟩ := List.mem_map.mp hx
    exact sub_nonneg.mpr (minCoeff_le_of_mem v y hy)
  · exact le_trans (not_lt.mp hneg) (minCoeff_le_of_mem v x hx)

/-- Entry `i` of the shifted vector. -/
theorem shiftAction_entry (v : List ℚ) (i : Nat) :
    (shiftAction v)[i]? =
      (v[i]?).map (fun x => if minCoeff v < 0 then x - minCoeff v else x) := by
  unfold shiftAction
  simp only
  split_ifs with hneg
  · simp
  · simp

/-- Entry `i` of the scaled vector. -/
theorem scaleAction_entry (a : List ℚ) (h : a.length = 22) (i : Nat) (hi : i < 22) :
    (scaleAction a)[i]? = some (a.getD i 0 * actionStd.getD i 0 + actionMean.getD i 0) := by
  have hs : actionStd.length = 22 := by simp [actionStd]
  have hm : actionMean.length = 22 := by simp [actionMean]
  have hl : i < (scaleAction a).length := by rw [length_scaleAction a h]; exact hi
  rw [List.getElem?_eq_getElem hl]
  simp only [scaleAction, cwiseAdd, cwiseProduct, List.getElem_zipWith]
  rw [List.getD_eq_getElem _ _ (by omega), List.getD_eq_getElem _ _ (by omega),
    List.getD_eq_getElem _ _ (by omega)]

/-! ## `ENVIRONMENT::step`: the parameters passed to `getAction` -/

/-- The result of lines 123-142 on a 22-entry action, in closed form. -/
theorem stepParams_eq (a : List ℚ) (h : a.length = 22) :
    stepParams a = some
      { mpc_weights := (shiftAction (scaleAction a)).take 12 ++ [0]
        mass := (shiftAction (scaleAction a)).getD 12 0
        inertia := (shiftAction (scaleAction a)).drop 13 } := by
  have hl : (shiftAction (scaleAction a)).length = 22 := by
    rw [length_shiftAction, length_scaleAction a h]
  have h12 : (shiftAction (scaleAction a))[12]? = some ((shiftAction (scaleAction a)).getD 12 0) := by
    rw [List.getD_eq_getElem _ _ (by omega), List.getElem?_eq_getElem]
  simp only [stepParams, actionDim, h, if_true, h12, head, tail, hl]

/-- Every call of the loop of `step` carries the parameters `p`. -/
theorem actionLoop_params (n : Int) (p : MpcParams) (i : Nat) (c : GetActionCall)
    (hc : c ∈ actionLoop n p i) :
    c.mpc_weights = p.mpc_weights ∧ c.mass = p.mass ∧ c.inertia = p.inertia := by
  induction i using actionLoop.induct n p with
  | case1 i hlt ih =>
    rw [actionLoop, dif_pos hlt] at hc
    rcases List.mem_cons.mp hc with h | h
    · subst h; exact ⟨rfl, rfl, rfl⟩
    · exact ih h
  | case2 i hge =>
    rw [actionLoop, dif_neg hge] at hc
    simp at hc

theorem scaleAction_zeroAction : scaleAction zeroAction = actionMean := by
  norm_num [scaleAction, zeroAction, cwiseAdd, cwiseProduct, actionStd, actionMean,
    List.replicate]

theorem minCoeff_actionMean : minCoeff actionMean = 0 := by
  norm_num [minCoeff, actionMean, List.foldl, min_def]

/-- The all-zero action yields the constants of the test driver. -/
theorem stepParams_zeroAction :
    stepParams zeroAction = some { mpc_weights := mpc_weights, mass := mass, inertia := inertia } := by
  rw [stepParams_eq zeroAction (by simp [zeroAction]), scaleAction_zeroAction]
  have hs : shiftAction actionMean = actionMean := by
    simp [shiftAction, minCoeff_actionMean]
  rw [hs]
  simp [actionMean, mpc_weights, mass, inertia]

/-- C1: for every 22-entry policy action `a`, `step` computes `s = a * actionStd + actionMean`
entrywise and `p` = `s` with `min(s)` subtracted from every entry when `min(s) < 0`, and passes
to every `getAction` call a weight vector of exactly 13 entries (`p[0..11]` in order, then 0),
the mass `p[12]`, and an inertia vector of exactly 9 entries (`p[13..21]` in order). The
all-zero action yields the weights, mass and inertia that the test driver uses. -/
theorem step_passes_scaled_shifted_action (a : List ℚ) (h : a.length = 22) :
    ∃ s p : List ℚ, ∃ c : MpcParams,
      s = scaleAction a ∧ p = shiftAction s ∧ s.length = 22 ∧ p.length = 22 ∧
      (∀ i, i < 22 →
        s[i]? = some (a.getD i 0 * actionStd.getD i 0 + actionMean.getD i 0)) ∧
      (minCoeff s ∈ s ∧ ∀ x ∈ s, minCoeff s ≤ x) ∧
      (minCoeff s < 0 → ∀ i : Nat, p[i]? = (s[i]?).map (fun x => x - minCoeff s)) ∧
      (¬ minCoeff s < 0 → p = s) ∧
      stepParams a = some c ∧
      c.mpc_weights.length = 13 ∧
      (∀ i, i < 12 → c.mpc_weights[i]? = p[i]?) ∧
      c.mpc_weights[12]? = some 0 ∧
      p[12]? = some c.mass ∧
      c.inertia.length = 9 ∧
      (∀ j, j < 9 → c.inertia[j]? = p[13 + j]?) ∧
      (∀ control_dt simulation_dt : ℚ,
        step a control_dt simulation_dt
            = some (actionLoop (numSubSteps control_dt simulation_dt) c 0) ∧
        ∀ call ∈ actionLoop (numSubSteps control_dt simulation_dt) c 0,
          call.mpc_weights = c.mpc_weights ∧ call.mass = c.mass ∧ call.inertia = c.inertia) ∧
      stepParams zeroAction
        = some { mpc_weights := mpc_weights, mass := mass, inertia := inertia } := by
  have hs : (scaleAction a).length = 22 := length_scaleAction a h
  have hp : (shiftAction (scaleAction a)).length = 22 := by rw [length_shiftAction, hs]
  have hne : scaleAction a ≠ [] := by
    intro h0; rw [h0] at hs; simp at hs
  refine ⟨scaleAction a, shiftAction (scaleAction a), _, rfl, rfl, hs, hp,
    fun i hi => scaleAction_entry a h i hi,
    ⟨minCoeff_mem _ hne, fun x hx => minCoeff_le_of_mem _ x hx⟩, ?_, ?_,
    stepParams_eq a h, ?_, ?_, ?_, ?_, ?_, ?_, ?_, stepParams_zeroAction⟩
  · intro hneg i
    simp only [shiftAction_entry, if_pos hneg]
  · intro hneg
    simp [shiftAction, hneg]
  · simp [hp]
  · intro i hi
    have h1 : i < ((shiftAction (scaleAction a)).take 12).length := by
      simp [hp]; exact hi
    rw [List.getElem?_append_left h1, List.getElem?_take_of_lt hi]
  · have h1 : ((shiftAction (scaleAction a)).take 12).length = 12 := by simp [hp]
    rw [List.getElem?_append_right (by omega)]
    simp [h1]
  · show _ = some ((shiftAction (scaleAction a)).getD 12 0)
    rw [List.getD_eq_getElem _ _ (by omega), List.getElem?_eq_getElem]
  · simp [hp]
  · intro j _
    simp [List.getElem?_drop]
  · intro control_dt simulation_dt
    refine ⟨?_, fun call hcall => actionLoop_params _ _ 0 call hcall⟩
    simp [step, stepParams_eq a h]

/-- C1, instance: the all-zero action. -/
theorem step_passes_scaled_shifted_action_witness :
    zeroAction.length = 22 ∧
    ∃ c : MpcParams, stepParams zeroAction = some c ∧ c.mpc_weights.length = 13 ∧
      c.inertia.length = 9 :=
  ⟨by simp [zeroAction],
    let ⟨_, _, c, _, _, _, _, _, _, _, _, hc, hw, _, _, _, hi, _⟩ :=
      step_passes_scaled_shifted_action zeroAction (by simp [zeroAction])
    ⟨c, hc, hw, hi⟩⟩

/-- The smallest entry of the scaled `lowMassAction` is its entry 12. -/
theorem scaleAction_lowMassAction :
    scaleAction lowMassAction =
      [1, 1, 0, 0, 0, 50, 0, 0, 1, 0.2, 0.2, 0.1,
       -17.546, 0.07335, 0, 0, 0, 0.25068, 0, 0, 0, 0.25447] := by
  norm_num [scaleAction, lowMassAction, cwiseAdd, cwiseProduct, actionStd, actionMean,
    List.replicate]

theorem minCoeff_scaleAction_lowMassAction : minCoeff (scaleAction lowMassAction) = -17.546 := by
  rw [scaleAction_lowMassAction]
  norm_num [minCoeff, List.foldl, min_def]

/-- C8: for every 22-entry policy action, after the scaling and the shift every entry of
`action_` is non-negative; when the scaled vector had a negative entry, the smallest entry of
the result is exactly 0 and it stands wherever the scaled vector had its smallest entry; when
the scaled vector had no negative entry it is left unchanged. -/
theorem step_shift_removes_negatives (a : List ℚ) (h : a.length = 22) :
    (∀ x ∈ shiftAction (scaleAction a), 0 ≤ x) ∧
    ((∃ x ∈ scaleAction a, x < 0) →
      minCoeff (shiftAction (scaleAction a)) = 0 ∧
      ∀ i : Nat, (scaleAction a)[i]? = some (minCoeff (scaleAction a)) →
        (shiftAction (scaleAction a))[i]? = some 0) ∧
    ((∀ x ∈ scaleAction a, 0 ≤ x) → shiftAction (scaleAction a) = scaleAction a) := by
  have hs : (scaleAction a).length = 22 := length_scaleAction a h
  have hne : scaleAction a ≠ [] := by
    intro h0; rw [h0] at hs; simp at hs
  have hne2 : shiftAction (scaleAction a) ≠ [] := by
    intro h0
    have := length_shiftAction (scaleAction a)
    rw [h0, hs] at this; simp at this
  refine ⟨fun x hx => shiftAction_nonneg _ x hx, ?_, ?_⟩
  · rintro ⟨x, hx, hx0⟩
    have hneg : minCoeff (scaleAction a) < 0 :=
      lt_of_le_of_lt (minCoeff_le_of_mem _ x hx) hx0
    have hpos : ∀ i : Nat, (scaleAction a)[i]? = some (minCoeff (scaleAction a)) →
        (shiftAction (scaleAction a))[i]? = some 0 := by
      intro i hi
      rw [shiftAction_entry, hi]
      simp [hneg]
    refine ⟨?_, hpos⟩
    obtain ⟨i, hi⟩ := List.mem_iff_getElem?.mp (minCoeff_mem _ hne)
    have h0 : (0 : ℚ) ∈ shiftAction (scaleAction a) :=
      List.mem_iff_getElem?.mpr ⟨i, hpos i hi⟩
    exact le_antisymm (minCoeff_le_of_mem _ 0 h0)
      (shiftAction_nonneg _ _ (minCoeff_mem _ hne2))
  · intro hall
    have hge : ¬ minCoeff (scaleAction a) < 0 :=
      not_lt.mpr (hall _ (minCoeff_mem _ hne))
    simp [shiftAction, hge]

/-- C8, instance: `lowMassAction`, whose scaled entry 12 is negative. -/
theorem step_shift_removes_negatives_witness :
    lowMassAction.length = 22 ∧
    (∀ x ∈ shiftAction (scaleAction lowMassAction), 0 ≤ x) ∧
    minCoeff (shiftAction (scaleAction lowMassAction)) = 0 :=
  ⟨by simp [lowMassAction],
    (step_shift_removes_negatives lowMassAction (by simp [lowMassAction])).1,
    ((step_shift_removes_negatives lowMassAction (by simp [lowMassAction])).2.1
      ⟨-17.546, by rw [scaleAction_lowMassAction]; simp, by norm_num⟩).1⟩

/-- The shifted `lowMassAction`: entry 12 is 0. -/
theorem shiftAction_lowMassAction_entry12 :
    (shiftAction (scaleAction lowMassAction)).getD 12 0 = 0 := by
  have h12 : (shiftAction (scaleAction lowMassAction))[12]? = some 0 := by
    rw [shiftAction_entry, minCoeff_scaleAction_lowMassAction, scaleAction_lowMassAction]
    norm_num
  rw [List.getD_eq_getElem?_getD, h12]
  rfl

/-- C2, as stated, fails: on `lowMassAction` (entry 12 equal to -100) the scaled entry 12 is
-17.546, the smallest entry, so the shift makes the mass passed to `getAction` exactly 0. -/
theorem step_mass_positive_counterexample :
    lowMassAction.length = 22 ∧
    ∃ c : MpcParams, stepParams lowMassAction = some c ∧ c.mass = 0 ∧ ¬ (0 < c.mass) := by
  refine ⟨by simp [lowMassAction], _, stepParams_eq lowMassAction (by simp [lowMassAction]), ?_, ?_⟩
  · exact shiftAction_lowMassAction_entry12
  · show ¬ (0 < (shiftAction (scaleAction lowMassAction)).getD 12 0)
    rw [shiftAction_lowMassAction_entry12]
    exact lt_irrefl 0

/-- C2, amended: for every 22-entry policy action the mass passed to `getAction` is
non-negative; it is 0 exactly when entry 12 of the scaled vector, `a[12] * 0.3 + 12.454`, is
the smallest entry of the scaled vector and is not positive, and strictly positive otherwise. -/
theorem step_mass_nonneg (a : List ℚ) (h : a.length = 22) :
    ∃ c : MpcParams, stepParams a = some c ∧
      (scaleAction a)[12]? = some (a.getD 12 0 * 0.3 + 12.454) ∧
      0 ≤ c.mass ∧
      (c.mass = 0 ↔
        (scaleAction a)[12]? = some (minCoeff (scaleAction a)) ∧ minCoeff (scaleAction a) ≤ 0) ∧
      (0 < c.mass ↔
        ¬ ((scaleAction a)[12]? = some (minCoeff (scaleAction a)) ∧
            minCoeff (scaleAction a) ≤ 0)) := by
  have hs : (scaleAction a).length = 22 := length_scaleAction a h
  have hp : (shiftAction (scaleAction a)).length = 22 := by rw [length_shiftAction, hs]
  have he : (scaleAction a)[12]? = some (a.getD 12 0 * 0.3 + 12.454) := by
    rw [scaleAction_entry a h 12 (by norm_num)]
    norm_num [actionStd, actionMean]
  have hmem : a.getD 12 0 * 0.3 + 12.454 ∈ scaleAction a := List.mem_iff_getElem?.mpr ⟨12, he⟩
  have hle : minCoeff (scaleAction a) ≤ a.getD 12 0 * 0.3 + 12.454 :=
    minCoeff_le_of_mem _ _ hmem
  have hm : (shiftAction (scaleAction a)).getD 12 0 =
      if minCoeff (scaleAction a) < 0 then a.getD 12 0 * 0.3 + 12.454 - minCoeff (scaleAction a)
      else a.getD 12 0 * 0.3 + 12.454 := by
    rw [List.getD_eq_getElem?_getD, shiftAction_entry, he]
    rfl
  have hnn : 0 ≤ (shiftAction (scaleAction a)).getD 12 0 := by
    rw [hm]
    split_ifs with hneg
    · linarith
    · linarith
  have hz : (shiftAction (scaleAction a)).getD 12 0 = 0 ↔
      (scaleAction a)[12]? = some (minCoeff (scaleAction a)) ∧ minCoeff (scaleAction a) ≤ 0 := by
    rw [hm, he]
    split_ifs with hneg
    · constructor
      · intro h0
        refine ⟨?_, le_of_lt hneg⟩
        congr 1
        linarith
      · rintro ⟨h1, _⟩
        have := Option.some.inj h1
        linarith
    · constructor
      · intro h0
        have hmin : minCoeff (scaleAction a) = 0 := by linarith
        refine ⟨?_, le_of_eq hmin⟩
        rw [hmin, h0]
      · rintro ⟨h1, h2⟩
        have := Option.some.inj h1
        linarith
  refine ⟨_, stepParams_eq a h, he, hnn, hz, ?_⟩
  show 0 < (shiftAction (scaleAction a)).getD 12 0 ↔ _
  rw [← hz]
  constructor
  · intro hpos h0; rw [h0] at hpos; exact lt_irrefl 0 hpos
  · intro hne; exact lt_of_le_of_ne hnn (Ne.symm hne)

/-- C2 amended, instance: the all-zero action, with mass 12.454. -/
theorem step_mass_nonneg_witness :
    zeroAction.length = 22 ∧ ∃ c : MpcParams, stepParams zeroAction = some c ∧ 0 ≤ c.mass :=
  ⟨by simp [zeroAction],
    let ⟨c, hc, _, hm, _⟩ := step_mass_nonneg zeroAction (by simp [zeroAction])
    ⟨c, hc, hm⟩⟩

/-- Entry `k` of the shifted vector, for `k < 22`, as the scaled entry minus the amount
the shift subtracts. -/
theorem shiftAction_scaleAction_getD (a : List ℚ) (h : a.length = 22) (k : Nat) (hk : k < 22) :
    (shiftAction (scaleAction a)).getD k 0 =
      a.getD k 0 * actionStd.getD k 0 + actionMean.getD k 0
        - (if minCoeff (scaleAction a) < 0 then minCoeff (scaleAction a) else 0) := by
  rw [List.getD_eq_getElem?_getD, shiftAction_entry, scaleAction_entry a h k hk]
  simp only [Option.map_some', Option.getD_some]
  split_ifs <;> ring

/-- The symmetry of a 9-entry inertia vector, entry by entry. -/
theorem inertiaSymmetric_iff (I : List ℚ) :
    inertiaSymmetric I ↔
      I.getD 1 0 = I.getD 3 0 ∧ I.getD 2 0 = I.getD 6 0 ∧ I.getD 5 0 = I.getD 7 0 := by
  unfold inertiaSymmetric inertiaEntry
  constructor
  · intro hsym
    exact ⟨hsym 0 1, hsym 0 2, hsym 1 2⟩
  · rintro ⟨h1, h2, h3⟩ r c
    fin_cases r <;> fin_cases c <;>
      first | rfl | exact h1 | exact h2 | exact h3 | exact h1.symm | exact h2.symm | exact h3.symm

/-- The inertia passed on `skewAction`. -/
theorem stepParams_skewAction :
    stepParams skewAction = some
      { mpc_weights := [1, 1, 0, 0, 0, 50, 0, 0, 1, 0.2, 0.2, 0.1, 0]
        mass := 12.454
        inertia := [0.07335, 0.003, 0, 0, 0.25068, 0, 0, 0, 0.25447] } := by
  have hsc : scaleAction skewAction =
      [1, 1, 0, 0, 0, 50, 0, 0, 1, 0.2, 0.2, 0.1,
       12.454, 0.07335, 0.003, 0, 0, 0.25068, 0, 0, 0, 0.25447] := by
    norm_num [scaleAction, skewAction, cwiseAdd, cwiseProduct, actionStd, actionMean,
      List.replicate]
  have hmin : minCoeff (scaleAction skewAction) = 0 := by
    rw [hsc]; norm_num [minCoeff, List.foldl, min_def]
  have hsh : shiftAction (scaleAction skewAction) = scaleAction skewAction := by
    simp [shiftAction, hmin]
  rw [stepParams_eq skewAction (by simp [skewAction]), hsh, hsc]
  simp

/-- C3, as stated, fails: on `skewAction` (entry 14 equal to 1) the inertia passed to
`getAction` has `I[0][1] = 0.003` and `I[1][0] = 0`. -/
theorem step_inertia_symmetric_counterexample :
    skewAction.length = 22 ∧
    ∃ c : MpcParams, stepParams skewAction = some c ∧
      inertiaEntry c.inertia 0 1 = 0.003 ∧ inertiaEntry c.inertia 1 0 = 0 ∧
      ¬ inertiaSymmetric c.inertia := by
  refine ⟨by simp [skewAction], _, stepParams_skewAction, ?_, ?_, ?_⟩
  · simp [inertiaEntry]
  · simp [inertiaEntry]
  · rw [inertiaSymmetric_iff]
    norm_num

/-- C3, amended: for every 22-entry policy action whose off-diagonal inertia entries agree
pairwise, `a[14] = a[16]`, `a[15] = a[19]` and `a[18] = a[20]`, the inertia passed to
`getAction`, read as a row-major 3x3 matrix, is symmetric. Each pair of mirrored entries is
computed from equal inputs by the same scaling constants (standard deviation 0.003, mean 0)
and the same shift. -/
theorem step_inertia_symmetric_of_equal_pairs (a : List ℚ) (h : a.length = 22)
    (h1 : a.getD 14 0 = a.getD 16 0) (h2 : a.getD 15 0 = a.getD 19 0)
    (h3 : a.getD 18 0 = a.getD 20 0) :
    ∃ c : MpcParams, stepParams a = some c ∧ inertiaSymmetric c.inertia := by
  have hd : ∀ j : Nat, ((shiftAction (scaleAction a)).drop 13).getD j 0 =
      (shiftAction (scaleAction a)).getD (13 + j) 0 := by
    intro j
    simp [List.getD_eq_getElem?_getD, List.getElem?_drop]
  have hstd : actionStd.getD 14 0 = actionStd.getD 16 0 ∧
      actionStd.getD 15 0 = actionStd.getD 19 0 ∧
      actionStd.getD 18 0 = actionStd.getD 20 0 := ⟨rfl, rfl, rfl⟩
  have hmean : actionMean.getD 14 0 = actionMean.getD 16 0 ∧
      actionMean.getD 15 0 = actionMean.getD 19 0 ∧
      actionMean.getD 18 0 = actionMean.getD 20 0 := ⟨rfl, rfl, rfl⟩
  refine ⟨_, stepParams_eq a h, ?_⟩
  show inertiaSymmetric ((shiftAction (scaleAction a)).drop 13)
  rw [inertiaSymmetric_iff, hd, hd, hd, hd, hd, hd,
    shiftAction_scaleAction_getD a h _ (by norm_num),
    shiftAction_scaleAction_getD a h _ (by norm_num),
    shiftAction_scaleAction_getD a h _ (by norm_num),
    shiftAction_scaleAction_getD a h _ (by norm_num),
    shiftAction_scaleAction_getD a h _ (by norm_num),
    shiftAction_scaleAction_getD a h _ (by norm_num)]
  refine ⟨?_, ?_, ?_⟩
  · show a.getD 14 0 * actionStd.getD 14 0 + actionMean.getD 14 0 - _ =
      a.getD 16 0 * actionStd.getD 16 0 + actionMean.getD 16 0 - _
    rw [h1, hstd.1, hmean.1]
  · show a.getD 15 0 * actionStd.getD 15 0 + actionMean.getD 15 0 - _ =
      a.getD 19 0 * actionStd.getD 19 0 + actionMean.getD 19 0 - _
    rw [h2, hstd.2.1, hmean.2.1]
  · show a.getD 18 0 * actionStd.getD 18 0 + actionMean.getD 18 0 - _ =
      a.getD 20 0 * actionStd.getD 20 0 + actionMean.getD 20 0 - _
    rw [h3, hstd.2.2, hmean.2.2]

/-- C3 amended, instance: the all-zero action, whose inertia is the diagonal matrix of the
test driver. -/
theorem step_inertia_symmetric_of_equal_pairs_witness :
    zeroAction.length = 22 ∧ ∃ c : MpcParams, stepParams zeroAction = some c ∧
      inertiaSymmetric c.inertia :=
  ⟨by simp [zeroAction],
    step_inertia_symmetric_of_equal_pairs zeroAction (by simp [zeroAction])
      (by simp [zeroAction]) (by simp [zeroAction]) (by simp [zeroAction])⟩

/-! ## Gait profiles under the gait update rule -/

/-- C4: for the "trotting" profile (stance duration 0.3 and duty factor 0.6 for every leg, phase
offsets (0.9, 0, 0, 0.9), initial states (0, 1, 1, 0)), under the gait update rule
(cycle length 0.3 / 0.6, STANCE iff frac(simTime / cycleLength + offset) < 0.6), at every
simTime >= 0 legs 0 and 3 have the same contact state and legs 1 and 2 have the same contact
state; the configured initial states agree within each diagonal pair. -/
theorem trotting_diagonal_pairs (simTime : ℚ) (_h : 0 ≤ simTime) :
    GaitProfile.make "trotting" = some trotting ∧
    (∀ leg : Fin 4, trotting.stance_duration leg = 0.3 ∧ trotting.duty_factor leg = 0.6 ∧
      cycleLength trotting leg = 0.3 / 0.6) ∧
    (∀ leg : Fin 4, contactState trotting leg simTime =
      if Int.fract (simTime / (0.3 / 0.6) + trotting.init_leg_phase leg) < 0.6
      then ContactState.STANCE else ContactState.SWING) ∧
    trotting.init_leg_phase = ![0.9, 0, 0, 0.9] ∧
    trotting.init_leg_state = ![0, 1, 1, 0] ∧
    contactState trotting 0 simTime = contactState trotting 3 simTime ∧
    contactState trotting 1 simTime = contactState trotting 2 simTime ∧
    trotting.init_leg_state 0 = trotting.init_leg_state 3 ∧
    trotting.init_leg_state 1 = trotting.init_leg_state 2 ∧
    resetContactState trotting 0 = resetContactState trotting 3 ∧
    resetContactState trotting 1 = resetContactState trotting 2 := by
  have hpar : ∀ leg : Fin 4, trotting.stance_duration leg = 0.3 ∧
      trotting.duty_factor leg = 0.6 ∧ cycleLength trotting leg = 0.3 / 0.6 := by
    intro leg
    fin_cases leg <;> simp [trotting, cycleLength]
  have hcs : ∀ leg : Fin 4, contactState trotting leg simTime =
      if Int.fract (simTime / (0.3 / 0.6) + trotting.init_leg_phase leg) < 0.6
      then ContactState.STANCE else ContactState.SWING := by
    intro leg
    unfold contactState normalizedPhase
    rw [(hpar leg).2.2, (hpar leg).2.1]
  have hp03 : trotting.init_leg_phase 0 = trotting.init_leg_phase 3 := by simp [trotting]
  have hp12 : trotting.init_leg_phase 1 = trotting.init_leg_phase 2 := by simp [trotting]
  have hs03 : trotting.init_leg_state 0 = trotting.init_leg_state 3 := by simp [trotting]
  have hs12 : trotting.init_leg_state 1 = trotting.init_leg_state 2 := by simp [trotting]
  refine ⟨by simp [GaitProfile.make], hpar, hcs, rfl, rfl, ?_, ?_, hs03, hs12, ?_, ?_⟩
  · rw [hcs 0, hcs 3, hp03]
  · rw [hcs 1, hcs 2, hp12]
  · unfold resetContactState; rw [hs03]
  · unfold resetContactState; rw [hs12]

/-- C4, instance: simTime 0.1, where legs 0 and 3 are in STANCE (phase 0.1) and legs 1 and 2
as well (phase 0.2). -/
theorem trotting_diagonal_pairs_witness :
    (0 : ℚ) ≤ 0.1 ∧
    contactState trotting 0 0.1 = contactState trotting 3 0.1 ∧
    contactState trotting 1 0.1 = contactState trotting 2 0.1 :=
  ⟨by norm_num,
    (trotting_diagonal_pairs 0.1 (by norm_num)).2.2.2.2.2.1,
    (trotting_diagonal_pairs 0.1 (by norm_num)).2.2.2.2.2.2.1⟩

/-- C5: for the "standing" profile (duty factor 1, initial state 1 = STANCE and phase offset 0
for all four legs), under the gait update rule (STANCE iff
frac(simTime / cycleLength + offset) < dutyFactor), every leg is STANCE at reset and at
every simTime >= 0. -/
theorem standing_always_stance (leg : Fin 4) (simTime : ℚ) (_h : 0 ≤ simTime) :
    GaitProfile.make "standing" = some standing ∧
    standing.duty_factor leg = 1 ∧ standing.init_leg_state leg = 1 ∧
    standing.init_leg_phase leg = 0 ∧
    resetContactState standing leg = ContactState.STANCE ∧
    contactState standing leg simTime = ContactState.STANCE := by
  have hd : standing.duty_factor leg = 1 := by fin_cases leg <;> simp [standing]
  have hs : standing.init_leg_state leg = 1 := by fin_cases leg <;> simp [standing]
  have hph : standing.init_leg_phase leg = 0 := by fin_cases leg <;> simp [standing]
  refine ⟨by simp [GaitProfile.make], hd, hs, hph, ?_, ?_⟩
  · unfold resetContactState; rw [if_pos hs]
  · unfold contactState normalizedPhase
    rw [hd, if_pos (Int.fract_lt_one _)]

/-- C5, instance: leg 2 at simTime 7.3. -/
theorem standing_always_stance_witness :
    (0 : ℚ) ≤ 7.3 ∧ contactState standing 2 7.3 = ContactState.STANCE :=
  ⟨by norm_num, (standing_always_stance 2 7.3 (by norm_num)).2.2.2.2.2⟩

/-! ## The sub-step loop of `ENVIRONMENT::step` -/

/-- The calls of the loop from counter value `i`, in closed form. -/
theorem actionLoop_eq (n : Int) (p : MpcParams) (i : Nat) :
    actionLoop n p i = (List.range' i (n - i).toNat).map (fun k =>
      { mpc_step := decide (k = 0), mpc_weights := p.mpc_weights, mass := p.mass,
        inertia := p.inertia }) := by
  induction i using actionLoop.induct n p with
  | case1 i hlt ih =>
    rw [actionLoop, dif_pos hlt, ih]
    have hn : (n - (i : Int)).toNat = (n - ((i + 1 : Nat) : Int)).toNat + 1 := by
      push_cast; omega
    rw [hn, List.range'_succ, List.map_cons]
    by_cases h0 : i = 0 <;> simp [h0]
  | case2 i hge =>
    rw [actionLoop, dif_neg hge]
    have hn : (n - (i : Int)).toNat = 0 := by omega
    rw [hn]
    rfl

/-- C6: in one call of `step` with `n = int(control_dt / simulation_dt + 1e-10)` sub-steps,
`getAction` is called `n` times (no call when `n <= 0`), each time with the same weights,
mass and inertia; the MPC-solve flag is true on the first call (`i = 0`) and false on every
later call, so for `n >= 1` exactly one call is flagged. -/
theorem step_calls_getAction (a : List ℚ) (h : a.length = 22) (control_dt simulation_dt : ℚ) :
    ∃ c : MpcParams, ∃ calls : List GetActionCall,
      stepParams a = some c ∧ step a control_dt simulation_dt = some calls ∧
      numSubSteps control_dt simulation_dt = truncToInt (control_dt / simulation_dt + 1e-10) ∧
      (calls.length : Int) = max (numSubSteps control_dt simulation_dt) 0 ∧
      (∀ i : Nat, i < calls.length →
        calls[i]? = some { mpc_step := decide (i = 0), mpc_weights := c.mpc_weights,
                           mass := c.mass, inertia := c.inertia }) ∧
      (1 ≤ numSubSteps control_dt simulation_dt →
        (calls.filter (fun call => call.mpc_step)).length = 1) := by
  obtain ⟨c, hc⟩ : ∃ c : MpcParams, stepParams a = some c := ⟨_, stepParams_eq a h⟩
  refine ⟨c, actionLoop (numSubSteps control_dt simulation_dt) c 0, hc, ?_, rfl, ?_, ?_, ?_⟩
  · simp [step, hc]
  · rw [actionLoop_eq]
    simp only [List.length_map, List.length_range', Nat.cast_zero, sub_zero]
    exact Int.toNat_eq_max _
  · intro i hi
    rw [actionLoop_eq] at hi ⊢
    simp only [List.length_map, List.length_range', Nat.cast_zero, sub_zero] at hi
    simp [List.getElem?_range', hi]
  · intro hn
    rw [actionLoop_eq]
    simp only [Nat.cast_zero, sub_zero]
    obtain ⟨m, hm⟩ : ∃ m : Nat, (numSubSteps control_dt simulation_dt).toNat = m + 1 :=
      ⟨(numSubSteps control_dt simulation_dt).toNat - 1, by omega⟩
    rw [hm, List.range'_succ, List.map_cons, List.filter_cons_of_pos (by simp)]
    have hrest : ∀ (s k : Nat), 0 < s →
        ((List.range' s k).map (fun j : Nat =>
          ({ mpc_step := decide (j = 0), mpc_weights := c.mpc_weights, mass := c.mass,
              inertia := c.inertia } :
            GetActionCall))).filter (fun call => call.mpc_step) = [] := by
      intro s k hs
      rw [List.filter_eq_nil_iff]
      intro call hcall
      obtain ⟨j, hj, rfl⟩ := List.mem_map.mp hcall
      have := (List.mem_range'_1.mp hj).1
      simp
      omega
    rw [hrest 1 m (by norm_num)]
    rfl

/-- C6, instance: the all-zero action with control_dt 0.01 and simulation_dt 0.0025 gives
four calls, the first one flagged. -/
theorem step_calls_getAction_witness :
    zeroAction.length = 22 ∧
    ∃ calls : List GetActionCall, step zeroAction 0.01 0.0025 = some calls ∧
      (calls.length : Int) = max (numSubSteps 0.01 0.0025) 0 ∧
      numSubSteps 0.01 0.0025 = 4 :=
  ⟨by simp [zeroAction],
    let ⟨_, calls, _, hcalls, _, hlen, _⟩ :=
      step_calls_getAction zeroAction (by simp [zeroAction]) 0.01 0.0025
    ⟨calls, hcalls, hlen, by norm_num [numSubSteps, truncToInt]; rfl⟩⟩

/-! ## The MPC cadence counter of the test driver -/

theorem mpcCountInit_eq : mpcCountInit = 19 := by
  norm_num [mpcCountInit, sim_freq, mpc_freq, truncToInt]

theorem mpcThreshold_eq : Int.tdiv (truncToInt sim_freq) mpc_freq = 20 := by
  norm_num [sim_freq, mpc_freq, truncToInt]
  rfl

theorem mpcTick_eq (c : Int) : mpcTick c = if c + 1 = 20 then (0, true) else (c + 1, false) := by
  simp only [mpcTick, mpcThreshold_eq]

/-- After iteration `k` (counted from 0) the counter holds `k mod 20`. -/
theorem mpcCountAfter_succ (k : Nat) : mpcCountAfter (k + 1) = ((k % 20 : Nat) : Int) := by
  induction k with
  | zero =>
    simp only [mpcCountAfter, mpcTick_eq, mpcCountInit_eq]
    norm_num
  | succ k ih =>
    rw [mpcCountAfter, ih, mpcTick_eq]
    split_ifs with h20
    · simp only
      omega
    · simp only
      omega

/-- C7: in the main loop of the test driver (`sim_freq = 1000`, `mpc_freq = 50`, `mpc_count`
initialised to 19) the flag `mpc_step` of iteration `k = 0, 1, 2, ...` is true if and only if
`k` is a multiple of 20; MPC is solved on the first step, and `mpc_count` is within 0..19
after every iteration. -/
theorem mpc_step_every_20 (k : Nat) :
    mpcCountInit = 19 ∧
    Int.tdiv (truncToInt sim_freq) mpc_freq = 20 ∧
    (mpcStepAt k = true ↔ 20 ∣ k) ∧
    mpcStepAt 0 = true ∧
    0 ≤ mpcCountAfter (k + 1) ∧ mpcCountAfter (k + 1) ≤ 19 := by
  have h0 : mpcStepAt 0 = true := by
    simp only [mpcStepAt, mpcCountAfter, mpcTick_eq, mpcCountInit_eq]
    norm_num
  refine ⟨mpcCountInit_eq, mpcThreshold_eq, ?_, h0, ?_, ?_⟩
  · cases k with
    | zero => simp [h0]
    | succ k =>
      simp only [mpcStepAt, mpcCountAfter_succ, mpcTick_eq]
      split_ifs with h
      · simp only [true_iff]
        omega
      · simp only [Bool.false_eq_true, false_iff]
        omega
  · rw [mpcCountAfter_succ]; omega
  · rw [mpcCountAfter_succ]; omega

/-! ## `generateCommand` in random mode -/

theorem fmod_zero_one : fmod 0 1 = 0 := by
  norm_num [fmod, truncToInt]

theorem truncToInt_wz_diff : truncToInt (wz_diff * 100) = 100 := by
  norm_num [wz_diff, truncToInt]

/-- The yaw-rate branch (case 4) of the random command, for any two values of `std::rand()`:
the command is `(rand2 mod 100) / 10 + 2`, which lies between 2 and 11.9. -/
theorem randomCommand_case4 (rand1 rand2 : Nat) (h4 : rand1 % 6 = 4) :
    randomCommand rand1 rand2 = [0, 0, 0, (((rand2 : Int) % 100 : Int) : ℚ) / 10 + 2] ∧
    (2 : ℚ) ≤ (((rand2 : Int) % 100 : Int) : ℚ) / 10 + 2 ∧
    (((rand2 : Int) % 100 : Int) : ℚ) / 10 + 2 ≤ 11.9 := by
  have hm : Int.tmod (rand1 : Int) 6 = 4 := by
    rw [Int.tmod_eq_emod (by omega) (by omega)]; omega
  have hr : Int.tmod (rand2 : Int) 100 = (rand2 : Int) % 100 := by
    rw [Int.tmod_eq_emod (by omega) (by omega)]
  have h0 : (0 : ℚ) ≤ (((rand2 : Int) % 100 : Int) : ℚ) := by
    have : (0 : Int) ≤ (rand2 : Int) % 100 := by omega
    exact_mod_cast this
  have h99 : (((rand2 : Int) % 100 : Int) : ℚ) ≤ 99 := by
    have : (rand2 : Int) % 100 ≤ 99 := by omega
    exact_mod_cast this
  refine ⟨?_, ?_, ?_⟩
  · simp only [randomCommand, hm, truncToInt_wz_diff, hr]
    norm_num
  · linarith
  · norm_num
    linarith

/-- C9 fails on the code: with `wz_diff_ = 1.0`, when the first `std::rand()` selects case 4
(resp. case 5) and the second returns 99, `generateCommand` sets the yaw-rate command to
11.9 (resp. -11.9), outside the documented range 2 to 3, because the code divides by 10
where the sibling cases divide by 100. The other three components are 0. -/
theorem generateCommand_yaw_rate_out_of_range :
    wz_diff = 1.0 ∧
    generateCommand [0, 0, 0, 0] 4 99 0 true = Except.ok [0, 0, 0, 11.9] ∧
    generateCommand [0, 0, 0, 0] 5 99 0 true = Except.ok [0, 0, 0, -11.9] ∧
    ¬ ((11.9 : ℚ) ≤ 3) ∧ ¬ ((-3 : ℚ) ≤ -11.9) := by
  have h4 : Int.tmod ((4 : Nat) : Int) 6 = 4 := by decide
  have h5 : Int.tmod ((5 : Nat) : Int) 6 = 5 := by decide
  have h99 : Int.tmod ((99 : Nat) : Int) 100 = 99 := by decide
  refine ⟨rfl, ?_, ?_, by norm_num, by norm_num⟩
  · simp only [generateCommand, fmod_zero_one, if_true, randomCommand, h4,
      truncToInt_wz_diff, h99]
    norm_num
  · simp only [generateCommand, fmod_zero_one, if_true, randomCommand, h5,
      truncToInt_wz_diff, h99]
    norm_num

/-! ## `interp1d` on the speed profile of the test driver -/

/-- One iteration of `interp1d` that returns. -/
theorem interp1dLoop_hit (tp : List ℚ) (sp : List (List ℚ)) (t : ℚ) (i : Nat) (lo hi : ℚ)
    (row : List ℚ) (hlo : tp[i]? = some lo) (hhi : tp[i + 1]? = some hi)
    (hrow : sp[i]? = some row) (h1 : lo ≤ t) (h2 : t ≤ hi) :
    interp1dLoop tp sp t i = Except.ok row := by
  obtain ⟨hi_lt, hget⟩ := List.getElem?_eq_some.mp hlo
  rw [interp1dLoop, dif_pos hi_lt, hget, if_pos h1, hhi]
  simp only [if_pos h2, hrow]

/-- One iteration of `interp1d` whose second test fails. -/
theorem interp1dLoop_above (tp : List ℚ) (sp : List (List ℚ)) (t : ℚ) (i : Nat) (lo hi : ℚ)
    (hlo : tp[i]? = some lo) (hhi : tp[i + 1]? = some hi) (h1 : lo ≤ t) (h2 : hi < t) :
    interp1dLoop tp sp t i = interp1dLoop tp sp t (i + 1) := by
  obtain ⟨hi_lt, hget⟩ := List.getElem?_eq_some.mp hlo
  rw [interp1dLoop, dif_pos hi_lt, hget, if_pos h1, hhi]
  simp only [if_neg (not_le.mpr h2)]

/-- One iteration of `interp1d` whose first test fails. -/
theorem interp1dLoop_below (tp : List ℚ) (sp : List (List ℚ)) (t : ℚ) (i : Nat) (lo : ℚ)
    (hlo : tp[i]? = some lo) (h1 : t < lo) :
    interp1dLoop tp sp t i = interp1dLoop tp sp t (i + 1) := by
  obtain ⟨hi_lt, hget⟩ := List.getElem?_eq_some.mp hlo
  rw [interp1dLoop, dif_pos hi_lt, hget, if_neg (not_le.mpr h1)]

/-- The last iteration of `interp1d` when its first test holds: `time_points[i+1]` is read
past the end. -/
theorem interp1dLoop_overrun (tp : List ℚ) (sp : List (List ℚ)) (t : ℚ) (i : Nat) (lo : ℚ)
    (hlo : tp[i]? = some lo) (hhi : tp[i + 1]? = none) (h1 : lo ≤ t) :
    interp1dLoop tp sp t i = Except.error (Fault.timePointOutOfRange (i + 1)) := by
  obtain ⟨hi_lt, hget⟩ := List.getElem?_eq_some.mp hlo
  rw [interp1dLoop, dif_pos hi_lt, hget, if_pos h1, hhi]

/-- The loop of `interp1d` ends without a `return`. -/
theorem interp1dLoop_end (tp : List ℚ) (sp : List (List ℚ)) (t : ℚ) (i : Nat)
    (hi : tp.length ≤ i) : interp1dLoop tp sp t i = Except.error Fault.missingReturn := by
  rw [interp1dLoop, dif_neg (by omega)]

/-- Past the last time point, `interp1d` reads `time_points[7]`, one past the end. -/
theorem interp1d_past_last_time_point (sp : List (List ℚ)) (t : ℚ) (h : 18 < t) :
    interp1d time_points sp t = Except.error (Fault.timePointOutOfRange 7) := by
  unfold interp1d
  rw [interp1dLoop_above time_points sp t 0 0 3 rfl rfl (by linarith) (by linarith),
    interp1dLoop_above time_points sp t 1 3 6 rfl rfl (by linarith) (by linarith),
    interp1dLoop_above time_points sp t 2 6 9 rfl rfl (by linarith) (by linarith),
    interp1dLoop_above time_points sp t 3 9 12 rfl rfl (by linarith) (by linarith),
    interp1dLoop_above time_points sp t 4 12 15 rfl rfl (by linarith) (by linarith),
    interp1dLoop_above time_points sp t 5 15 18 rfl rfl (by linarith) (by linarith),
    interp1dLoop_overrun time_points sp t 6 18 rfl rfl (by linarith)]

/-- Before the first time point, `interp1d` reaches its end without a `return`. -/
theorem interp1d_before_first_time_point (sp : List (List ℚ)) (t : ℚ) (h : t < 0) :
    interp1d time_points sp t = Except.error Fault.missingReturn := by
  unfold interp1d
  rw [interp1dLoop_below time_points sp t 0 0 rfl (by linarith),
    interp1dLoop_below time_points sp t 1 3 rfl (by linarith),
    interp1dLoop_below time_points sp t 2 6 rfl (by linarith),
    interp1dLoop_below time_points sp t 3 9 rfl (by linarith),
    interp1dLoop_below time_points sp t 4 12 rfl (by linarith),
    interp1dLoop_below time_points sp t 5 15 rfl (by linarith),
    interp1dLoop_below time_points sp t 6 18 rfl (by linarith),
    interp1dLoop_end time_points sp t 7 (by simp [time_points])]

/-- Within the profile, `0 <= t <= 18`, `getCommand` returns row `i` of `speed_points` for the
first `i` with `time_points[i] <= t <= time_points[i+1]`, and every index it reads is in
bounds. -/
theorem getCommand_within_profile (t : ℚ) (h0 : 0 ≤ t) (h18 : t ≤ 18) :
    ∃ (i : Nat) (lo hi : ℚ) (row : List ℚ),
      i < 6 ∧ time_points[i]? = some lo ∧ time_points[i + 1]? = some hi ∧
      lo ≤ t ∧ t ≤ hi ∧
      (∀ j : Nat, j < i → ∀ lo2 hi2 : ℚ, time_points[j]? = some lo2 →
        time_points[j + 1]? = some hi2 → ¬ (lo2 ≤ t ∧ t ≤ hi2)) ∧
      (speed_points 1.5 0.75 2.0)[i]? = some row ∧
      getCommand t = Except.ok row := by
  have key : ∀ (j : Nat) (lo2 hi2 : ℚ), time_points[j]? = some lo2 →
      time_points[j + 1]? = some hi2 → hi2 = lo2 + 3 ∧ lo2 = 3 * j := by
    intro j lo2 hi2 hl hh
    have hj : j + 1 < 7 := (List.getElem?_eq_some.mp hh).1
    have hj6 : j < 6 := by omega
    interval_cases j <;> simp [time_points] at hl hh <;> subst hl <;> subst hh <;> norm_num
  have first : ∀ (i : Nat), (3 * (i : ℚ) < t) → ∀ j : Nat, j < i → ∀ lo2 hi2 : ℚ,
      time_points[j]? = some lo2 → time_points[j + 1]? = some hi2 →
      ¬ (lo2 ≤ t ∧ t ≤ hi2) := by
    intro i hit j hj lo2 hi2 hl hh
    obtain ⟨e1, e2⟩ := key j lo2 hi2 hl hh
    rintro ⟨_, hle⟩
    have : (j : ℚ) + 1 ≤ i := by exact_mod_cast hj
    linarith
  unfold getCommand interp1d
  by_cases c1 : t ≤ 3
  · exact ⟨0, 0, 3, _, by norm_num, rfl, rfl, h0, c1, fun j hj => absurd hj (by omega), rfl,
      interp1dLoop_hit _ _ t 0 0 3 _ rfl rfl rfl h0 c1⟩
  have c1 := not_le.mp c1
  rw [interp1dLoop_above time_points _ t 0 0 3 rfl rfl (by linarith) c1]
  by_cases c2 : t ≤ 6
  · exact ⟨1, 3, 6, _, by norm_num, rfl, rfl, le_of_lt c1, c2, first 1 (by norm_num; linarith),
      rfl, interp1dLoop_hit _ _ t 1 3 6 _ rfl rfl rfl (le_of_lt c1) c2⟩
  have c2 := not_le.mp c2
  rw [interp1dLoop_above time_points _ t 1 3 6 rfl rfl (by linarith) c2]
  by_cases c3 : t ≤ 9
  · exact ⟨2, 6, 9, _, by norm_num, rfl, rfl, le_of_lt c2, c3, first 2 (by norm_num; linarith),
      rfl, interp1dLoop_hit _ _ t 2 6 9 _ rfl rfl rfl (le_of_lt c2) c3⟩
  have c3 := not_le.mp c3
  rw [interp1dLoop_above time_points _ t 2 6 9 rfl rfl (by linarith) c3]
  by_cases c4 : t ≤ 12
  · exact ⟨3, 9, 12, _, by norm_num, rfl, rfl, le_of_lt c3, c4, first 3 (by norm_num; linarith),
      rfl, interp1dLoop_hit _ _ t 3 9 12 _ rfl rfl rfl (le_of_lt c3) c4⟩
  have c4 := not_le.mp c4
  rw [interp1dLoop_above time_points _ t 3 9 12 rfl rfl (by linarith) c4]
  by_cases c5 : t ≤ 15
  · exact ⟨4, 12, 15, _, by norm_num, rfl, rfl, le_of_lt c4, c5,
      first 4 (by norm_num; linarith), rfl,
      interp1dLoop_hit _ _ t 4 12 15 _ rfl rfl rfl (le_of_lt c4) c5⟩
  have c5 := not_le.mp c5
  rw [interp1dLoop_above time_points _ t 4 12 15 rfl rfl (by linarith) c5]
  exact ⟨5, 15, 18, _, by norm_num, rfl, rfl, le_of_lt c5, h18,
    first 5 (by norm_num; linarith), rfl,
    interp1dLoop_hit _ _ t 5 15 18 _ rfl rfl rfl (le_of_lt c5) h18⟩

/-- C10 fails on the code: at `t = 20`, a time the main loop of the test driver passes to
`getCommand` (`0 <= 20 < max_time = 24`), no index `i` has
`time_points[i] <= t <= time_points[i+1]`, and at `i = 6` the loop of `interp1d` reads
`time_points[7]`, past the end of the 7 time points. -/
theorem getCommand_reads_past_time_points :
    time_points.length = 7 ∧ (speed_points 1.5 0.75 2.0).length = 6 ∧
    (0 : ℚ) ≤ 20 ∧ (20 : ℚ) < (max_time : ℚ) ∧
    time_points[7]? = none ∧
    getCommand 20 = Except.error (Fault.timePointOutOfRange 7) := by
  refine ⟨rfl, rfl, by norm_num, by norm_num [max_time], rfl, ?_⟩
  exact interp1d_past_last_time_point _ 20 (by norm_num)

end RaisimMpc
